import Mathlib

/-!
Verification of the ScaLAPACK wrapper slice of deal.II
(`include/deal.II/lac/scalapack.h`): the `ProcessGrid` construction
logic, the block-cyclic index mapping used by `ScaLAPACKMatrix`, and the
operation/state machine of `ScaLAPACKMatrix`.  The repository slice only
contains the header (declarations and the two inline `local_el`
accessors); the bodies of the member functions live in a translation
unit that is not part of the slice, so those bodies are modelled from
the specification, as marked on each definition.
-/

namespace ScaLAPACK

/-! ### Block-cyclic index mapping (spec section 4.2) -/

/-- Modelled from the spec: the owning process row of global row `i`
for block size `MB` and `p` process rows is `(i / MB) mod p`.  The
body of `ScaLAPACKMatrix::global_row` and its inverse is not in the
slice; the formula is the one given in spec section 4.2.  The same
function with `NB`, `q` serves the column direction. -/
def owning_process (i MB p : ℕ) : ℕ := (i / MB) % p

/-- Modelled from the spec: the local row index of global row `i` is
`(i / (MB*p)) * MB + (i mod MB)` (spec section 4.2). -/
def local_index (i MB p : ℕ) : ℕ := (i / (MB * p)) * MB + i % MB

/-- Modelled from the spec: the inverse local-to-global mapping used by
`ScaLAPACKMatrix::global_row` / `ScaLAPACKMatrix::global_column`:
`global = (local / MB) * (MB*p) + process_row*MB + (local mod MB)`
(spec section 4.2). -/
def global_index (loc MB p prow : ℕ) : ℕ :=
  (loc / MB) * (MB * p) + prow * MB + loc % MB

/-- Local-to-global after global-to-local is the identity. -/
theorem global_local_roundtrip (i MB p : ℕ) (hMB : 0 < MB) (hp : 0 < p) :
    global_index (local_index i MB p) MB p (owning_process i MB p) = i := by
  unfold global_index local_index owning_process
  have hr : i % MB < MB := Nat.mod_lt _ hMB
  have h1 : (i / (MB * p) * MB + i % MB) / MB = i / (MB * p) := by
    rw [Nat.mul_comm (i / (MB * p)) MB, Nat.mul_add_div hMB,
      Nat.div_eq_of_lt hr, Nat.add_zero]
  have h2 : (i / (MB * p) * MB + i % MB) % MB = i % MB := by
    rw [Nat.mul_comm (i / (MB * p)) MB, Nat.mul_add_mod, Nat.mod_eq_of_lt hr]
  rw [h1, h2]
  have h3 : i % (MB * p) / MB = i / MB % p := Nat.mod_mul_right_div_self i MB p
  have h4 : i % (MB * p) % MB = i % MB := Nat.mod_mod_of_dvd i ⟨p, rfl⟩
  have h6 : i % (MB * p) / MB * MB + i % (MB * p) % MB = i % (MB * p) := by
    rw [Nat.mul_comm (i % (MB * p) / MB) MB]
    exact Nat.div_add_mod (i % (MB * p)) MB
  calc i / (MB * p) * (MB * p) + i / MB % p * MB + i % MB
      = i / (MB * p) * (MB * p) + (i % (MB * p) / MB * MB + i % (MB * p) % MB) := by
        rw [h3, h4]; ring
    _ = i / (MB * p) * (MB * p) + i % (MB * p) := by rw [h6]
    _ = i := by
        rw [Nat.mul_comm (i / (MB * p)) (MB * p)]
        exact Nat.div_add_mod i (MB * p)

/-- C2: The block-cyclic index mapping is a bijection: for every global
coordinate `(row, col)` with `row < M`, `col < N` and all valid block
sizes `MB`, `NB` and grid dimensions `p`, `q`, mapping to
(owning process, local-row, local-col) and applying the inverse
local-to-global mapping reproduces the original coordinate, and the
(process, local offset) pair determines the global element uniquely. -/
theorem blockCyclic_bijective (M N MB NB p q row col : ℕ)
    (hrow : row < M) (hcol : col < N)
    (hMB : 0 < MB) (hNB : 0 < NB) (hp : 0 < p) (hq : 0 < q) :
    (global_index (local_index row MB p) MB p (owning_process row MB p) = row ∧
     global_index (local_index col NB q) NB q (owning_process col NB q) = col) ∧
    (∀ row' col',
      owning_process row' MB p = owning_process row MB p →
      local_index row' MB p = local_index row MB p →
      owning_process col' NB q = owning_process col NB q →
      local_index col' NB q = local_index col NB q →
      row' = row ∧ col' = col) := by
  refine ⟨⟨global_local_roundtrip row MB p hMB hp,
           global_local_roundtrip col NB q hNB hq⟩, ?_⟩
  intro row' col' ho hl ho' hl'
  constructor
  · have := global_local_roundtrip row' MB p hMB hp
    rw [ho, hl] at this
    rw [← this, global_local_roundtrip row MB p hMB hp]
  · have := global_local_roundtrip col' NB q hNB hq
    rw [ho', hl'] at this
    rw [← this, global_local_roundtrip col NB q hNB hq]

/-- C2 witness. -/
theorem blockCyclic_bijective_witness :
    (global_index (local_index 7 2 3) 2 3 (owning_process 7 2 3) = 7 ∧
     global_index (local_index 5 3 2) 3 2 (owning_process 5 3 2) = 5) ∧
    (∀ row' col',
      owning_process row' 2 3 = owning_process 7 2 3 →
      local_index row' 2 3 = local_index 7 2 3 →
      owning_process col' 3 2 = owning_process 5 3 2 →
      local_index col' 3 2 = local_index 5 3 2 →
      row' = 7 ∧ col' = 5) :=
  blockCyclic_bijective 10 8 2 3 3 2 7 5 (by decide) (by decide)
    (by decide) (by decide) (by decide) (by decide)

/-! ### Scatter / gather between a serial matrix and the distributed layout
(spec section 4.3, operator= from FullMatrix and copy_to) -/

/-- Modelled from the spec: `ScaLAPACKMatrix::operator=` from a
`FullMatrix` scatters the serial matrix block-by-block into each active
process: local entry `(lr, lc)` of process `(prow, pcol)` receives the
global entry at `(global_row lr, global_column lc)`.  The result is
represented as the map from process coordinates and local coordinates to
the stored value. -/
def assign_from_full (A : ℕ → ℕ → ℤ) (MB p NB q : ℕ) :
    ℕ → ℕ → ℕ → ℕ → ℤ := fun prow pcol lr lc =>
  A (global_index lr MB p prow) (global_index lc NB q pcol)

/-- Modelled from the spec: `ScaLAPACKMatrix::copy_to` gathers every
local block back into a serial matrix: global entry `(i, j)` is read
from the owning process at the local offset of `(i, j)`. -/
def copy_to_full (D : ℕ → ℕ → ℕ → ℕ → ℤ) (MB p NB q : ℕ) :
    ℕ → ℕ → ℤ := fun i j =>
  D (owning_process i MB p) (owning_process j NB q)
    (local_index i MB p) (local_index j NB q)

/-- C3: assigning a serial matrix `A` into a distributed matrix and
immediately copying back yields a matrix equal to `A`, for every entry
`(i, j)` of an `M × N` matrix with `M, N ≥ 1` (exact arithmetic). -/
theorem assign_copy_roundtrip (A : ℕ → ℕ → ℤ) (M N MB NB p q i j : ℕ)
    (hM : 1 ≤ M) (hN : 1 ≤ N) (hi : i < M) (hj : j < N)
    (hMB : 0 < MB) (hNB : 0 < NB) (hp : 0 < p) (hq : 0 < q) :
    copy_to_full (assign_from_full A MB p NB q) MB p NB q i j = A i j := by
  unfold copy_to_full assign_from_full
  rw [global_local_roundtrip i MB p hMB hp, global_local_roundtrip j NB q hNB hq]

/-- C3 witness. -/
theorem assign_copy_roundtrip_witness :
    copy_to_full
      (assign_from_full (fun i j => (10 * i + j : ℤ)) 4 2 3 3) 4 2 3 3 9 7
      = (10 * 9 + 7 : ℤ) :=
  assign_copy_roundtrip (fun i j => (10 * i + j : ℤ)) 12 11 4 3 2 3 9 7
    (by decide) (by decide) (by decide) (by decide)
    (by decide) (by decide) (by decide) (by decide)

/-! ### ProcessGrid construction (spec section 4.1) -/

/-- Ceiling division, as used for the number of blocks per dimension. -/
def ceil_div (a b : ℕ) : ℕ := (a + b - 1) / b

/-- Modelled from the spec: the maximum number of processes the
heuristic `ProcessGrid` constructor can use is
`min( ceil(M/MB) * ceil(N/NB), Np )`. -/
def n_usable_processes (M N MB NB Np : ℕ) : ℕ :=
  min (ceil_div M MB * ceil_div N NB) Np

/-- All factorizations of `u` into an ordered pair of positive factors. -/
def factor_pairs (u : ℕ) : List (ℕ × ℕ) :=
  (((List.range u).map (· + 1)).filter (fun d => u % d == 0)).map
    (fun d => (d, u / d))

/-- Distance between the ratio `p : q` and the ratio `M : N`. -/
def ratio_dist (M N p q : ℕ) : ℚ :=
  |(p : ℚ) / (q : ℚ) - (M : ℚ) / (N : ℚ)|

/-- Modelled from the spec: the heuristic `ProcessGrid` constructor
(the body of `ProcessGrid::ProcessGrid` taking matrix dimensions and
block sizes is not in the slice) picks, among factorizations of the
usable process count into `p * q`, the pair whose ratio `p : q` best
approximates `M : N`. -/
def choose_grid_dims (M N MB NB Np : ℕ) : ℕ × ℕ :=
  let u := n_usable_processes M N MB NB Np
  ((factor_pairs u).argmin (fun pq => ratio_dist M N pq.1 pq.2)).getD (1, u)

theorem mem_factor_pairs {u : ℕ} {pq : ℕ × ℕ} (hu : 0 < u) :
    pq ∈ factor_pairs u ↔ 0 < pq.1 ∧ pq.1 * pq.2 = u := by
  unfold factor_pairs
  constructor
  · intro h
    obtain ⟨d, hd, hdq⟩ := List.mem_map.mp h
    obtain ⟨hd1, hd2⟩ := List.mem_filter.mp hd
    obtain ⟨e, _, rfl⟩ := List.mem_map.mp hd1
    have hdvd : (e + 1) ∣ u := Nat.dvd_of_mod_eq_zero (by
      have := of_decide_eq_true hd2
      simpa using this)
    subst hdq
    exact ⟨Nat.succ_pos e, Nat.mul_div_cancel' hdvd⟩
  · rintro ⟨hp, hmul⟩
    have hq : 0 < pq.2 := by
      rcases Nat.eq_zero_or_pos pq.2 with h0 | h0
      · rw [h0, Nat.mul_zero] at hmul; omega
      · exact h0
    refine List.mem_map.mpr ⟨pq.1, List.mem_filter.mpr ⟨?_, ?_⟩, ?_⟩
    · refine List.mem_map.mpr ⟨pq.1 - 1, List.mem_range.mpr ?_, by omega⟩
      have : pq.1 ≤ u := by
        calc pq.1 = pq.1 * 1 := (Nat.mul_one _).symm
          _ ≤ pq.1 * pq.2 := Nat.mul_le_mul_left _ hq
          _ = u := hmul
      omega
    · have : u % pq.1 = 0 := by
        rw [← hmul]; exact Nat.mul_mod_right _ _
      simpa using this
    · have : u / pq.1 = pq.2 := by
        rw [← hmul, Nat.mul_comm]; exact Nat.mul_div_cancel _ hp
      rw [this]

set_option maxHeartbeats 1000000 in
theorem choose_grid_dims_spec (M N MB NB Np : ℕ)
    (hM : 1 ≤ M) (hN : 1 ≤ N) (hMB : 1 ≤ MB) (hNB : 1 ≤ NB) (hNp : 1 ≤ Np) :
    ((choose_grid_dims M N MB NB Np).1 * (choose_grid_dims M N MB NB Np).2
        = n_usable_processes M N MB NB Np) ∧
    0 < (choose_grid_dims M N MB NB Np).1 ∧
    0 < (choose_grid_dims M N MB NB Np).2 ∧
    ∀ p' q' : ℕ, 0 < p' → p' * q' = n_usable_processes M N MB NB Np →
      ratio_dist M N (choose_grid_dims M N MB NB Np).1
          (choose_grid_dims M N MB NB Np).2 ≤ ratio_dist M N p' q' := by
  have hu : 0 < n_usable_processes M N MB NB Np := by
    unfold n_usable_processes ceil_div
    have h1 : 0 < (M + MB - 1) / MB := Nat.div_pos (by omega) (by omega)
    have h2 : 0 < (N + NB - 1) / NB := Nat.div_pos (by omega) (by omega)
    exact lt_min (Nat.mul_pos h1 h2) hNp
  have hmem1 : ((1 : ℕ), n_usable_processes M N MB NB Np) ∈
      factor_pairs (n_usable_processes M N MB NB Np) :=
    (mem_factor_pairs hu).mpr ⟨Nat.one_pos, Nat.one_mul _⟩
  cases h : (factor_pairs (n_usable_processes M N MB NB Np)).argmin
      (fun pq => ratio_dist M N pq.1 pq.2) with
  | none =>
      rw [List.argmin_eq_none.mp h] at hmem1
      exact absurd hmem1 (List.not_mem_nil _)
  | some m =>
      have hcg : choose_grid_dims M N MB NB Np = m := by
        simp only [choose_grid_dims]
        rw [h]
        rfl
      have hm : m ∈ factor_pairs (n_usable_processes M N MB NB Np) :=
        List.argmin_mem (Option.mem_def.mpr h)
      obtain ⟨hm1, hm2⟩ := (mem_factor_pairs hu).mp hm
      have hm2' : 0 < m.2 := by
        rcases Nat.eq_zero_or_pos m.2 with h0 | h0
        · rw [h0, Nat.mul_zero] at hm2; omega
        · exact h0
      rw [hcg]
      refine ⟨hm2, hm1, hm2', ?_⟩
      intro p' q' hp' hmul'
      have hmem' : (p', q') ∈ factor_pairs (n_usable_processes M N MB NB Np) :=
        (mem_factor_pairs hu).mpr ⟨hp', hmul'⟩
      exact List.le_of_mem_argmin hmem' (Option.mem_def.mpr h)

/-- C4: heuristic grid construction chooses `(p, q)` with
`p*q ≤ min(ceil(M/MB) * ceil(N/NB), Np)`, and among factorizations of
the usable count it picks the pair whose ratio `p : q` best
approximates `M : N`. -/
theorem heuristic_grid_choice (M N MB NB Np : ℕ)
    (hM : 1 ≤ M) (hN : 1 ≤ N) (hMB : 1 ≤ MB) (hNB : 1 ≤ NB) (hNp : 1 ≤ Np) :
    (choose_grid_dims M N MB NB Np).1 * (choose_grid_dims M N MB NB Np).2
        ≤ min (ceil_div M MB * ceil_div N NB) Np ∧
    ∀ p' q' : ℕ, 0 < p' →
      p' * q' = n_usable_processes M N MB NB Np →
      ratio_dist M N (choose_grid_dims M N MB NB Np).1
          (choose_grid_dims M N MB NB Np).2 ≤ ratio_dist M N p' q' := by
  obtain ⟨h1, _, _, h4⟩ := choose_grid_dims_spec M N MB NB Np hM hN hMB hNB hNp
  exact ⟨le_of_eq h1, h4⟩

/-- C4 witness, at the example of spec section 8:
`M = 100, N = 50, MB = NB = 10, Np = 8`. -/
theorem heuristic_grid_choice_witness :
    (choose_grid_dims 100 50 10 10 8).1 * (choose_grid_dims 100 50 10 10 8).2
        ≤ min (ceil_div 100 10 * ceil_div 50 10) 8 ∧
    ∀ p' q' : ℕ, 0 < p' →
      p' * q' = n_usable_processes 100 50 10 10 8 →
      ratio_dist 100 50 (choose_grid_dims 100 50 10 10 8).1
          (choose_grid_dims 100 50 10 10 8).2 ≤ ratio_dist 100 50 p' q' :=
  heuristic_grid_choice 100 50 10 10 8 (by decide) (by decide) (by decide)
    (by decide) (by decide)

/-- Error taxonomy of spec section 7 relevant to grid construction. -/
inductive GridError where
  | configurationError
deriving DecidableEq

/-- The `ProcessGrid` data model: total process count, grid dimensions,
and the per-rank active flag.  Field names follow the source
(`n_mpi_processes`, `n_process_rows`, `n_process_columns`, `active`);
the per-process `active` flag is modelled as a function of the rank. -/
structure ProcessGrid where
  n_mpi_processes : ℕ
  n_process_rows : ℕ
  n_process_columns : ℕ
  active : ℕ → Bool

/-- Modelled from the spec: the explicit `ProcessGrid` constructor (its
body is not in the slice) takes user-supplied grid dimensions `(p, q)`,
fails with a configuration error if `p * q` exceeds the process count
`Np`, and otherwise marks exactly the first `p * q` ranks active. -/
def mkProcessGrid (Np p q : ℕ) : Except GridError ProcessGrid :=
  if p * q ≤ Np then
    Except.ok ⟨Np, p, q, fun rank => decide (rank < p * q)⟩
  else
    Except.error GridError.configurationError

/-- Modelled from the spec: the heuristic `ProcessGrid` constructor
derives `(p, q)` from the matrix shape via `choose_grid_dims` and marks
the first `p * q` ranks active. -/
def mkProcessGridHeuristic (Np M N MB NB : ℕ) : ProcessGrid :=
  ⟨Np, (choose_grid_dims M N MB NB Np).1, (choose_grid_dims M N MB NB Np).2,
    fun rank =>
      decide (rank < (choose_grid_dims M N MB NB Np).1 *
        (choose_grid_dims M N MB NB Np).2)⟩

/-- The construction invariant of spec section 3: `p*q ≤ Np`, `p ≥ 1`,
`q ≥ 1`, and the active region is exactly the first `p*q` ranks. -/
def grid_invariant (Np : ℕ) (g : ProcessGrid) : Prop :=
  g.n_process_rows * g.n_process_columns ≤ Np ∧
  0 < g.n_process_rows ∧ 0 < g.n_process_columns ∧
  ∀ rank, (g.active rank = true ↔
    rank < g.n_process_rows * g.n_process_columns)

/-- C7: every constructed `ProcessGrid` over `Np` processes satisfies
`p*q ≤ Np`, `p ≥ 1`, `q ≥ 1`, its active region covers exactly the
first `p*q` ranks, and every rank `≥ p*q` is inactive — for the
explicit constructor and for the heuristic constructor alike.  The
model is purely functional, so these facts are fixed at construction. -/
theorem processGrid_invariants (Np p q M N MB NB : ℕ)
    (hp : 0 < p) (hq : 0 < q) (hpq : p * q ≤ Np)
    (hM : 1 ≤ M) (hN : 1 ≤ N) (hMB : 1 ≤ MB) (hNB : 1 ≤ NB) (hNp : 1 ≤ Np) :
    (∃ g, mkProcessGrid Np p q = Except.ok g ∧ grid_invariant Np g) ∧
    grid_invariant Np (mkProcessGridHeuristic Np M N MB NB) := by
  constructor
  · refine ⟨⟨Np, p, q, fun rank => decide (rank < p * q)⟩, ?_, ?_⟩
    · unfold mkProcessGrid
      rw [if_pos hpq]
    · exact ⟨hpq, hp, hq, fun rank => by simp [grid_invariant]⟩
  · obtain ⟨h1, h2, h3, _⟩ := choose_grid_dims_spec M N MB NB Np hM hN hMB hNB hNp
    have hle : (choose_grid_dims M N MB NB Np).1 *
        (choose_grid_dims M N MB NB Np).2 ≤ Np := by
      rw [h1]; exact min_le_right _ _
    exact ⟨hle, h2, h3, fun rank => by simp [mkProcessGridHeuristic]⟩

/-- C7 witness. -/
theorem processGrid_invariants_witness :
    (∃ g, mkProcessGrid 5 2 2 = Except.ok g ∧ grid_invariant 5 g) ∧
    grid_invariant 5 (mkProcessGridHeuristic 5 6 3 2 1) :=
  processGrid_invariants 5 2 2 6 3 2 1 (by decide) (by decide) (by decide)
    (by decide) (by decide) (by decide) (by decide) (by decide)

/-- C8: explicit `ProcessGrid` construction with caller-supplied
`(p, q)` fails with a `ConfigurationError` when `p * q` exceeds the
available process count `Np`; the error arises at construction (the
constructor returns it, no grid is built, and nothing retries). -/
theorem explicit_grid_configuration_error (Np p q : ℕ) (h : Np < p * q) :
    mkProcessGrid Np p q = Except.error GridError.configurationError := by
  unfold mkProcessGrid
  rw [if_neg (by omega)]

/-- C8 witness. -/
theorem explicit_grid_configuration_error_witness :
    (1 : ℕ) < 2 * 1 ∧
    mkProcessGrid 1 2 1 = Except.error GridError.configurationError :=
  ⟨by decide, explicit_grid_configuration_error 1 2 1 (by decide)⟩

/-! ### ScaLAPACKMatrix: data model and state machine (spec sections 3, 4.3, 4.4) -/

/-- Operation states of spec section 4.4 (the enum behind the
`LAPACKSupport::State state` member; `lapack_support.h` is not in the
slice, so the state set is taken from the spec). -/
inductive MatrixState where
  | uninitialized
  | matrix
  | choleskyFactored
  | inverted
  | eigenvectorsComputed
deriving DecidableEq

/-- Structural property tag of the matrix (the `LAPACKSupport::Property
property` member). -/
inductive MatrixProperty where
  | general
  | symmetric
  | lowerTriangular
  | upperTriangular
deriving DecidableEq

/-- Error taxonomy of spec section 7 relevant to matrix operations:
state-precondition violations and typed numerical failures carrying the
backend status code. -/
inductive MatrixError where
  | statePreconditionError
  | numericalFailure (info : ℤ)
deriving DecidableEq

/-- The generic 2D storage container `ScaLAPACKMatrix` inherits from
(`TransposeTable`, an external collaborator per spec section 1): a
buffer addressed through transposed indices, so entry `(i, j)` of the
table lives at underlying position `(j, i)`. -/
structure TransposeTable where
  values : ℕ → ℕ → ℚ

/-- Read entry `(i, j)` of the table (`TransposeTable::operator()`). -/
def TransposeTable.el (t : TransposeTable) (i j : ℕ) : ℚ := t.values j i

/-- Write entry `(i, j)` of the table, leaving every other underlying
cell unchanged. -/
def TransposeTable.update (t : TransposeTable) (i j : ℕ) (v : ℚ) :
    TransposeTable :=
  ⟨fun a b => if a = j ∧ b = i then v else t.values a b⟩

/-- The `ScaLAPACKMatrix` data model: the local storage inherited from
`TransposeTable`, the operation state, the property tag, the global and
block dimensions and the local extent, with the field names of the
source header. -/
structure ScaLAPACKMatrix extends TransposeTable where
  state : MatrixState
  property : MatrixProperty
  n_rows : ℕ
  n_columns : ℕ
  row_block_size : ℕ
  column_block_size : ℕ
  n_local_rows : ℕ
  n_local_columns : ℕ

/-- Read access to a local element: the source inline function
delegates to `TransposeTable::operator()` on the same coordinates. -/
def ScaLAPACKMatrix.local_el (m : ScaLAPACKMatrix) (loc_row loc_column : ℕ) : ℚ :=
  m.toTransposeTable.el loc_row loc_column

/-- Write access to a local element: the source inline function returns
a reference into the same `TransposeTable` cell that the read accessor
uses; writing through it is modelled as updating that cell. -/
def ScaLAPACKMatrix.local_el_write (m : ScaLAPACKMatrix)
    (loc_row loc_column : ℕ) (v : ℚ) : ScaLAPACKMatrix :=
  { m with toTransposeTable :=
      m.toTransposeTable.update loc_row loc_column v }

/-- Modelled from the spec: the body of
`ScaLAPACKMatrix::compute_cholesky_factorization` is not in the slice.
Valid only in state `matrix`; it delegates to the backend triangular
factorization kernel (modelled by the status `info` and the resulting
local buffer `bk`); a non-zero status surfaces as a typed numerical
failure carrying it; on success the state becomes `cholesky-factored`. -/
def compute_cholesky_factorization (info : ℤ) (bk : TransposeTable)
    (m : ScaLAPACKMatrix) : Option MatrixError × ScaLAPACKMatrix :=
  if m.state = MatrixState.matrix then
    if info = 0 then
      (none, { m with toTransposeTable := bk,
                      state := MatrixState.choleskyFactored })
    else
      (some (MatrixError.numericalFailure info), m)
  else
    (some MatrixError.statePreconditionError, m)

/-- Modelled from the spec: the body of `ScaLAPACKMatrix::invert` is
not in the slice.  Valid only in state `cholesky-factored`; it
delegates to the backend triangular-factor inversion kernel (modelled
by the resulting buffer `bk`) and transitions to `inverted`; from any
other state it fails with a state-precondition error and leaves the
matrix unchanged. -/
def ScaLAPACKMatrix.invert (bk : TransposeTable) (m : ScaLAPACKMatrix) :
    Option MatrixError × ScaLAPACKMatrix :=
  if m.state = MatrixState.choleskyFactored then
    (none, { m with toTransposeTable := bk, state := MatrixState.inverted })
  else
    (some MatrixError.statePreconditionError, m)

/-- Modelled from the spec: `ScaLAPACKMatrix::norm` delegates to the
backend norm kernel (an opaque reduction, modelled as a function of the
norm type character) and is read-only, returning the value next to the
untouched matrix. -/
def ScaLAPACKMatrix.norm (bk : Char → ℚ) (t : Char) (m : ScaLAPACKMatrix) :
    ℚ × ScaLAPACKMatrix :=
  (bk t, m)

/-- The `l1` norm query (`ScaLAPACKMatrix::l1_norm`). -/
def ScaLAPACKMatrix.l1_norm (bk : Char → ℚ) (m : ScaLAPACKMatrix) :
    ℚ × ScaLAPACKMatrix :=
  ScaLAPACKMatrix.norm bk '1' m

/-- The `l-infinity` norm query (`ScaLAPACKMatrix::linfty_norm`). -/
def ScaLAPACKMatrix.linfty_norm (bk : Char → ℚ) (m : ScaLAPACKMatrix) :
    ℚ × ScaLAPACKMatrix :=
  ScaLAPACKMatrix.norm bk 'I' m

/-- The Frobenius norm query (`ScaLAPACKMatrix::frobenius_norm`). -/
def ScaLAPACKMatrix.frobenius_norm (bk : Char → ℚ) (m : ScaLAPACKMatrix) :
    ℚ × ScaLAPACKMatrix :=
  ScaLAPACKMatrix.norm bk 'F' m

/-- Modelled from the spec: the body of
`ScaLAPACKMatrix::reciprocal_condition_number` is not in the slice.
Valid only in state `cholesky-factored`; it delegates to the backend
condition estimator (value `bk`) and is read-only. -/
def reciprocal_condition_number (bk a_norm : ℚ) (m : ScaLAPACKMatrix) :
    (Option MatrixError × ℚ) × ScaLAPACKMatrix :=
  if m.state = MatrixState.choleskyFactored then ((none, bk), m)
  else ((some MatrixError.statePreconditionError, 0), m)

/-- Modelled from the spec: the body of
`ScaLAPACKMatrix::eigenvalues_symmetric` is not in the slice.  Valid
only in state `matrix`; it invokes the backend symmetric eigensolver
(whose output sequence is the parameter `evs`) and returns the sequence
without re-sorting. -/
def eigenvalues_symmetric (evs : List ℚ) (m : ScaLAPACKMatrix) :
    (Option MatrixError × List ℚ) × ScaLAPACKMatrix :=
  if m.state = MatrixState.matrix then ((none, evs), m)
  else ((some MatrixError.statePreconditionError, []), m)

/-- Modelled from the spec: the body of
`ScaLAPACKMatrix::eigenpairs_symmetric` is not in the slice.  Valid
only in state `matrix`; the eigenvalue sequence `evs` is returned
without re-sorting and the eigenvectors (backend buffer `bk`) overwrite
the local storage, the state becoming `eigenvectors-computed`. -/
def eigenpairs_symmetric (evs : List ℚ) (bk : TransposeTable)
    (m : ScaLAPACKMatrix) : (Option MatrixError × List ℚ) × ScaLAPACKMatrix :=
  if m.state = MatrixState.matrix then
    ((none, evs), { m with toTransposeTable := bk,
                           state := MatrixState.eigenvectorsComputed })
  else
    ((some MatrixError.statePreconditionError, []), m)

/-- The identity matrix, as a global-coordinate value map. -/
def identity_matrix : ℕ → ℕ → ℚ := fun i j => if i = j then 1 else 0

/-- The value `lam` is an eigenvalue of the leading `n × n` block of
`A`: some vector that is non-zero inside the range satisfies the
eigenvalue equation on every row of the block. -/
def is_eigenvalue_of (A : ℕ → ℕ → ℚ) (n : ℕ) (lam : ℚ) : Prop :=
  ∃ v : ℕ → ℚ, (∃ k, k < n ∧ v k ≠ 0) ∧
    ∀ i, i < n → (Finset.range n).sum (fun j => A i j * v j) = lam * v i

/-- A convenience concrete matrix for witnesses. -/
def sample_matrix (s : MatrixState) (rows cols : ℕ) : ScaLAPACKMatrix :=
  { values := fun _ _ => 0
    state := s
    property := MatrixProperty.symmetric
    n_rows := rows
    n_columns := cols
    row_block_size := 1
    column_block_size := 1
    n_local_rows := rows
    n_local_columns := cols }

/-- C1: invoking inversion on a matrix that is not in state
`cholesky-factored` fails with a `StatePreconditionError` and leaves
the matrix content and state unchanged; from `cholesky-factored` the
inversion succeeds and transitions the state to `inverted`. -/
theorem invert_state_machine (bk : TransposeTable) (m₁ m₂ : ScaLAPACKMatrix)
    (h₁ : m₁.state ≠ MatrixState.choleskyFactored)
    (h₂ : m₂.state = MatrixState.choleskyFactored) :
    ScaLAPACKMatrix.invert bk m₁ =
      (some MatrixError.statePreconditionError, m₁) ∧
    (ScaLAPACKMatrix.invert bk m₂).1 = none ∧
    (ScaLAPACKMatrix.invert bk m₂).2.state = MatrixState.inverted := by
  unfold ScaLAPACKMatrix.invert
  rw [if_neg h₁, if_pos h₂]
  exact ⟨rfl, rfl, rfl⟩

/-- C1 witness. -/
theorem invert_state_machine_witness :
    ScaLAPACKMatrix.invert ⟨fun _ _ => 1⟩ (sample_matrix MatrixState.matrix 2 2) =
      (some MatrixError.statePreconditionError,
       sample_matrix MatrixState.matrix 2 2) ∧
    (ScaLAPACKMatrix.invert ⟨fun _ _ => 1⟩
      (sample_matrix MatrixState.choleskyFactored 2 2)).1 = none ∧
    (ScaLAPACKMatrix.invert ⟨fun _ _ => 1⟩
      (sample_matrix MatrixState.choleskyFactored 2 2)).2.state =
        MatrixState.inverted :=
  invert_state_machine ⟨fun _ _ => 1⟩ (sample_matrix MatrixState.matrix 2 2)
    (sample_matrix MatrixState.choleskyFactored 2 2) (by decide) (by decide)

/-- C5: Cholesky factorization is valid only in state `matrix` (any
other state yields a state-precondition error with the matrix
unchanged); a positive backend status surfaces as a typed numerical
failure carrying that status, the matrix unchanged; a zero status
succeeds and transitions the state to `cholesky-factored`. -/
theorem cholesky_state_machine (info : ℤ) (bk : TransposeTable)
    (m₁ m₂ m₃ : ScaLAPACKMatrix)
    (h₁ : m₁.state ≠ MatrixState.matrix)
    (h₂ : m₂.state = MatrixState.matrix) (hinfo : 0 < info)
    (h₃ : m₃.state = MatrixState.matrix) :
    compute_cholesky_factorization info bk m₁ =
      (some MatrixError.statePreconditionError, m₁) ∧
    compute_cholesky_factorization info bk m₂ =
      (some (MatrixError.numericalFailure info), m₂) ∧
    (compute_cholesky_factorization 0 bk m₃).1 = none ∧
    (compute_cholesky_factorization 0 bk m₃).2.state =
      MatrixState.choleskyFactored := by
  unfold compute_cholesky_factorization
  rw [if_neg h₁, if_pos h₂, if_pos h₃, if_neg (by omega : ¬info = 0),
    if_pos rfl]
  exact ⟨rfl, rfl, rfl, rfl⟩

/-- C5 witness. -/
theorem cholesky_state_machine_witness :
    compute_cholesky_factorization 2 ⟨fun _ _ => 1⟩
      (sample_matrix MatrixState.inverted 2 2) =
      (some MatrixError.statePreconditionError,
       sample_matrix MatrixState.inverted 2 2) ∧
    compute_cholesky_factorization 2 ⟨fun _ _ => 1⟩
      (sample_matrix MatrixState.matrix 2 2) =
      (some (MatrixError.numericalFailure 2),
       sample_matrix MatrixState.matrix 2 2) ∧
    (compute_cholesky_factorization 0 ⟨fun _ _ => 1⟩
      (sample_matrix MatrixState.matrix 2 2)).1 = none ∧
    (compute_cholesky_factorization 0 ⟨fun _ _ => 1⟩
      (sample_matrix MatrixState.matrix 2 2)).2.state =
      MatrixState.choleskyFactored :=
  cholesky_state_machine 2 ⟨fun _ _ => 1⟩
    (sample_matrix MatrixState.inverted 2 2)
    (sample_matrix MatrixState.matrix 2 2)
    (sample_matrix MatrixState.matrix 2 2)
    (by decide) (by decide) (by decide) (by decide)

/-- C9: the three norm queries and the condition-number estimate are
read-only: each returns the matrix component unchanged, so the
operation state, the local buffer and every other attribute are
untouched. -/
theorem norms_read_only (bk : Char → ℚ) (rc a_norm : ℚ)
    (m : ScaLAPACKMatrix) :
    (ScaLAPACKMatrix.l1_norm bk m).2 = m ∧
    (ScaLAPACKMatrix.linfty_norm bk m).2 = m ∧
    (ScaLAPACKMatrix.frobenius_norm bk m).2 = m ∧
    (reciprocal_condition_number rc a_norm m).2 = m := by
  refine ⟨rfl, rfl, rfl, ?_⟩
  unfold reciprocal_condition_number
  split <;> rfl

/-- C6: the eigenvalue sequence produced by the symmetric
eigendecomposition, values-only or values-plus-vectors, is the backend
sequence unchanged — non-decreasing and of length `min(M, N)` whenever
the backend output satisfies its contract — and when the matrix being
solved is the identity of size `n`, every produced eigenvalue equals
`1` exactly. -/
theorem eigenvalue_sequence_spec (evs : List ℚ) (bk : TransposeTable)
    (m : ScaLAPACKMatrix) (A : ℕ → ℕ → ℚ) (n : ℕ)
    (hst : m.state = MatrixState.matrix)
    (hsorted : List.Chain' (· ≤ ·) evs)
    (hlen : evs.length = min m.n_rows m.n_columns)
    (heig : ∀ lam ∈ evs, is_eigenvalue_of A n lam) :
    ((eigenvalues_symmetric evs m).1.2 = evs ∧
     (eigenpairs_symmetric evs bk m).1.2 = evs) ∧
    List.Chain' (· ≤ ·) (eigenvalues_symmetric evs m).1.2 ∧
    (eigenvalues_symmetric evs m).1.2.length = min m.n_rows m.n_columns ∧
    (A = identity_matrix →
      ∀ lam ∈ (eigenvalues_symmetric evs m).1.2, lam = 1) := by
  have hout : (eigenvalues_symmetric evs m).1.2 = evs := by
    unfold eigenvalues_symmetric
    rw [if_pos hst]
  have hout2 : (eigenpairs_symmetric evs bk m).1.2 = evs := by
    unfold eigenpairs_symmetric
    rw [if_pos hst]
  refine ⟨⟨hout, hout2⟩, by rw [hout]; exact hsorted,
    by rw [hout]; exact hlen, ?_⟩
  rintro rfl lam hlam
  rw [hout] at hlam
  obtain ⟨v, ⟨k, hk, hvk⟩, hvec⟩ := heig lam hlam
  have hsum := hvec k hk
  have hk' : (Finset.range n).sum (fun j => identity_matrix k j * v j) = v k := by
    have : ∀ j, identity_matrix k j * v j = if k = j then v j else 0 := by
      intro j
      unfold identity_matrix
      by_cases h : k = j <;> simp [h]
    rw [Finset.sum_congr rfl (fun j _ => this j)]
    rw [Finset.sum_ite_eq]
    rw [if_pos (Finset.mem_range.mpr hk)]
  rw [hk'] at hsum
  by_contra hne
  have : (lam - 1) * v k = 0 := by linarith [hsum]
  rcases mul_eq_zero.mp this with h | h
  · exact hne (by linarith [sub_eq_zero.mp h])
  · exact hvk h

/-- C6 witness: a 1x1 matrix in state `matrix`, solved as the identity
of size 1 with backend output `[1]`. -/
theorem eigenvalue_sequence_spec_witness :
    ((eigenvalues_symmetric [1] (sample_matrix MatrixState.matrix 1 1)).1.2
        = [1] ∧
     (eigenpairs_symmetric [1] ⟨fun _ _ => 1⟩
        (sample_matrix MatrixState.matrix 1 1)).1.2 = [1]) ∧
    List.Chain' (· ≤ ·)
      (eigenvalues_symmetric [1] (sample_matrix MatrixState.matrix 1 1)).1.2 ∧
    (eigenvalues_symmetric [1]
        (sample_matrix MatrixState.matrix 1 1)).1.2.length =
      min (sample_matrix MatrixState.matrix 1 1).n_rows
        (sample_matrix MatrixState.matrix 1 1).n_columns ∧
    (identity_matrix = identity_matrix →
      ∀ lam ∈ (eigenvalues_symmetric [1]
        (sample_matrix MatrixState.matrix 1 1)).1.2, lam = 1) :=
  eigenvalue_sequence_spec [1] ⟨fun _ _ => 1⟩
    (sample_matrix MatrixState.matrix 1 1) identity_matrix 1
    (by decide) (by simp) (by decide)
    (by
      intro lam hlam
      have hlam1 : lam = 1 := by simpa using hlam
      subst hlam1
      refine ⟨fun _ => 1, ⟨0, Nat.zero_lt_one, by norm_num⟩, ?_⟩
      intro i hi
      have hi0 : i = 0 := by omega
      subst hi0
      simp [identity_matrix, Finset.sum_range_one])

/-- C10: the read accessor and the write accessor for local elements
address the same storage cell: writing through the mutable `local_el`
and reading through the const `local_el` at the same in-range local
coordinate returns the written value, and reading any other local
coordinate is unaffected by the write. -/
theorem local_el_read_write (m : ScaLAPACKMatrix) (r c r' c' : ℕ) (v : ℚ)
    (hr : r < m.n_local_rows) (hc : c < m.n_local_columns)
    (hr' : r' < m.n_local_rows) (hc' : c' < m.n_local_columns)
    (hne : (r', c') ≠ (r, c)) :
    (m.local_el_write r c v).local_el r c = v ∧
    (m.local_el_write r c v).local_el r' c' = m.local_el r' c' := by
  unfold ScaLAPACKMatrix.local_el ScaLAPACKMatrix.local_el_write
    TransposeTable.el TransposeTable.update
  constructor
  · simp
  · have : ¬(c' = c ∧ r' = r) := by
      intro ⟨hcc, hrr⟩
      exact hne (by rw [hcc, hrr])
    simp [this]

/-- C10 witness. -/
theorem local_el_read_write_witness :
    ((sample_matrix MatrixState.matrix 2 2).local_el_write 0 0 7).local_el 0 0
      = 7 ∧
    ((sample_matrix MatrixState.matrix 2 2).local_el_write 0 0 7).local_el 0 1
      = (sample_matrix MatrixState.matrix 2 2).local_el 0 1 :=
  local_el_read_write (sample_matrix MatrixState.matrix 2 2) 0 0 0 1 7
    (by decide) (by decide) (by decide) (by decide) (by decide)

end ScaLAPACK
